import Mathlib

/-!
# LED controller serial bridge (`server.js`)

A shallow embedding of the serial-bridge part of `server.js`:

* JavaScript strings are lists of characters (`List Char`); every pattern the
  code searches for is ASCII, so code-unit and code-point views agree;
* `ledStates` is a JavaScript array of booleans, embedded as `List Bool`;
* a JavaScript number coming out of `parseInt` is `Option Int`, `none` being
  `NaN` (every comparison with `NaN` is `false`).
-/

namespace LedBridge

/-! ## String primitives -/

/-- JavaScript `WhiteSpace` and `LineTerminator` code points: the characters
that `String.prototype.trim` and the leading-whitespace skip of `parseInt`
remove. -/
def isJsWhitespace (c : Char) : Bool :=
  c.toNat = 0x09 || c.toNat = 0x0A || c.toNat = 0x0B || c.toNat = 0x0C ||
  c.toNat = 0x0D || c.toNat = 0x20 || c.toNat = 0xA0 || c.toNat = 0x1680 ||
  (0x2000 ≤ c.toNat && c.toNat ≤ 0x200A) || c.toNat = 0x2028 ||
  c.toNat = 0x2029 || c.toNat = 0x202F || c.toNat = 0x205F ||
  c.toNat = 0x3000 || c.toNat = 0xFEFF

/-- Removal of trailing whitespace (`trimEnd`). -/
def trimEnd (s : List Char) : List Char :=
  ((s.reverse).dropWhile isJsWhitespace).reverse

/-- Removal of leading whitespace (`trimStart`). -/
def trimStart (s : List Char) : List Char :=
  s.dropWhile isJsWhitespace

/-- `String.prototype.trim`: whitespace removed from both ends. -/
def trim (s : List Char) : List Char :=
  trimEnd (trimStart s)

/-- `s.startsWith(pat)`: when `pat` is a prefix of `s`, the rest of `s` after
it; `none` otherwise. -/
def stripLit : List Char → List Char → Option (List Char)
  | [], s => some s
  | _ :: _, [] => none
  | p :: ps, c :: cs => if p = c then stripLit ps cs else none

/-- `s.includes(pat)`: `pat` occurs in `s` as a contiguous substring. -/
def includes : List Char → List Char → Bool
  | [], pat => (stripLit pat []).isSome
  | c :: cs, pat => (stripLit pat (c :: cs)).isSome || includes cs pat

/-! ## `parseInt` and number formatting -/

/-- Value of a character as a digit in the given radix (10 or 16), if it is
one. -/
def digitValue (radix : Nat) (c : Char) : Option Nat :=
  if 48 ≤ c.toNat ∧ c.toNat ≤ 57 then some (c.toNat - 48)
  else if radix = 16 ∧ 97 ≤ c.toNat ∧ c.toNat ≤ 102 then some (c.toNat - 87)
  else if radix = 16 ∧ 65 ≤ c.toNat ∧ c.toNat ≤ 70 then some (c.toNat - 55)
  else none

/-- Reads the longest prefix of radix digits, accumulating its value; the
boolean records whether at least one digit was read. -/
def parseDigits (radix : Nat) : Nat → Bool → List Char → Nat × Bool
  | acc, seen, [] => (acc, seen)
  | acc, seen, c :: cs =>
    match digitValue radix c with
    | some d => parseDigits radix (acc * radix + d) true cs
    | none => (acc, seen)

/-- Digits part of `parseInt` with no radix argument: a `0x`/`0X` prefix
selects radix 16, anything else radix 10; `none` (NaN) when no digit is
read. -/
def parseUnsigned (s : List Char) : Option Nat :=
  match s with
  | '0' :: 'x' :: rest =>
    let r := parseDigits 16 0 false rest
    if r.2 then some r.1 else none
  | '0' :: 'X' :: rest =>
    let r := parseDigits 16 0 false rest
    if r.2 then some r.1 else none
  | _ =>
    let r := parseDigits 10 0 false s
    if r.2 then some r.1 else none

/-- The global `parseInt(string)`: leading whitespace skipped, optional sign,
then the longest digit prefix. `none` is `NaN`. Exact on every input whose
value is a safe integer; beyond that JavaScript rounds to a double, which
stays far outside every range this program compares against. -/
def parseInt (s : List Char) : Option Int :=
  match trimStart s with
  | '-' :: rest => (parseUnsigned rest).map (fun n => - (n : Int))
  | '+' :: rest => (parseUnsigned rest).map (fun n => (n : Int))
  | rest => (parseUnsigned rest).map (fun n => (n : Int))

/-- Number to string conversion in a template literal: `NaN` prints as `NaN`,
an integer in decimal. -/
def numberToString : Option Int → List Char
  | none => "NaN".toList
  | some (Int.ofNat n) => Nat.toDigits 10 n
  | some (Int.negSucc n) => '-' :: Nat.toDigits 10 (n + 1)

/-! ## The status regular expression `/Pin (\d+) (ON|OFF)/` -/

/-- The class `\d`: exactly the ASCII digits. -/
def isDigit (c : Char) : Bool :=
  decide (48 ≤ c.toNat) && decide (c.toNat ≤ 57)

/-- The part of the pattern after the digits, tried at the start of `s`: a
space, then the alternation `(ON|OFF)` with `ON` tried first. Returns the text
captured by the second group. -/
def matchTail (s : List Char) : Option (List Char) :=
  match stripLit " ON".toList s with
  | some _ => some "ON".toList
  | none =>
    match stripLit " OFF".toList s with
    | some _ => some "OFF".toList
    | none => none

/-- The greedy group `(\d+)` followed by the rest of the pattern, with
backtracking: after reading a digit the matcher first tries to read more, and
only when that fails tries the rest of the pattern here. `acc` holds the
digits read so far; the result is the pair of captured groups. -/
def matchDigits : List Char → List Char → Option (List Char × List Char)
  | _, [] => none
  | acc, c :: cs =>
    if isDigit c then
      match matchDigits (acc ++ [c]) cs with
      | some r => some r
      | none => (matchTail cs).map (fun t => (acc ++ [c], t))
    else none

/-- The whole pattern tried at the start of `s`. -/
def matchAt (s : List Char) : Option (List Char × List Char) :=
  match stripLit "Pin ".toList s with
  | some rest => matchDigits [] rest
  | none => none

/-- Model of `message.match(/Pin (\d+) (ON|OFF)/)`: the pattern is tried at
each start position from the left, the first success gives the two captured
groups (`pinMatch[1]`, `pinMatch[2]`), and `none` stands for `null`. -/
def matchPin : List Char → Option (List Char × List Char)
  | [] => none
  | c :: cs =>
    match matchAt (c :: cs) with
    | some r => some r
    | none => matchPin cs

/-- The two texts the second capture group can hold. -/
def IsToken (tok : List Char) : Prop :=
  tok = "ON".toList ∨ tok = "OFF".toList

/-! ## Device state and the status parser -/

/-- The initial value of the global `ledStates` (pins 2 to 6). -/
def initialLedStates : List Bool := [false, false, false, false, false]

/-- The first block of `handleArduinoData`: a single-pin report. -/
def applyPinReport (ledStates : List Bool) (message : List Char) : List Bool :=
  if includes message "Pin".toList &&
      (includes message "ON".toList || includes message "OFF".toList) then
    match matchPin message with
    | some (g1, g2) =>
      let pin := parseInt g1
      let state := decide (g2 = "ON".toList)
      match pin with
      | some n =>
        let index := n - 2
        if 0 ≤ index ∧ index < 5 then ledStates.set index.toNat state
        else ledStates
      | none => ledStates
    | none => ledStates
  else ledStates

/-- Model of `handleArduinoData(data)`: the message is the trimmed line; the
three `if` blocks run one after the other. -/
def handleArduinoData (ledStates : List Bool) (data : List Char) : List Bool :=
  let message := trim data
  let s1 := applyPinReport ledStates message
  let s2 := if includes message "All LEDs ON".toList then
      [true, true, true, true, true] else s1
  if includes message "All LEDs OFF".toList then
    [false, false, false, false, false] else s2

/-- Delivery of the `data` events of the line parser: the listener
`handleArduinoData` runs once per line, in arrival order, each run starting
from the state the previous one left. -/
def processLines (ledStates : List Bool) : List (List Char) → List Bool
  | [] => ledStates
  | line :: rest => processLines (handleArduinoData ledStates line) rest

/-- The value a line gives to index `i`, in the words of the ordering
guarantee: `false` if the line contains `All LEDs OFF`, else `true` if it
contains `All LEDs ON`, else the token of its leftmost `Pin <digits> (ON|OFF)`
match when that pin is `i + 2`; `none` when the line does not assign `i`. -/
def lineAssigns (line : List Char) (i : Nat) : Option Bool :=
  if includes line "All LEDs OFF".toList then some false
  else if includes line "All LEDs ON".toList then some true
  else
    match matchPin line with
    | some (g1, tok) =>
      if parseInt g1 = some ((i : Int) + 2) then some (decide (tok = "ON".toList))
      else none
    | none => none

/-! ## Connection state, command transmission and the `/led/:pin` route -/

/-- The process-level variables of `server.js`. A `SerialPort` object is
identified by a handle number; `none` is `null`. The field `written` is the
record of the calls `arduinoPort.write(payload, ..)` made so far, in order,
each with the port it was made on. -/
structure Server where
  arduinoPort : Option Nat
  parser : Option Nat
  isConnected : Bool
  ledStates : List Bool
  written : List (Nat × List Char)
deriving DecidableEq, Repr

/-- The state at process start. -/
def Server.initial : Server :=
  { arduinoPort := none, parser := none, isConnected := false,
    ledStates := initialLedStates, written := [] }

/-- The events for which `connectToPort` registers a listener on a port. -/
inductive PortEvent where
  | opened (port : Nat)
  | error
  | close
deriving DecidableEq, Repr

/-- The listener `port.on('open', ..)` of the port with handle `port`. -/
def onOpen (port : Nat) (st : Server) : Server :=
  { st with arduinoPort := some port, parser := some port, isConnected := true }

/-- The listener `port.on('error', ..)`. -/
def onError (st : Server) : Server :=
  { st with isConnected := false }

/-- The listener `port.on('close', ..)`. -/
def onClose (st : Server) : Server :=
  { st with isConnected := false, arduinoPort := none, parser := none }

/-- One step of the connection state machine. -/
def portStep (st : Server) : PortEvent → Server
  | .opened port => onOpen port st
  | .error => onError st
  | .close => onClose st

/-- Outcome of the promise returned by `sendArduinoCommand`. -/
inductive SendResult where
  | resolved
  | rejected (message : List Char)
deriving DecidableEq, Repr

/-- Model of `sendArduinoCommand(command)`. `writeErr` is what the transport
passes to the write callback (`none` for success); it is consulted only when
a write is made. Past the guard the port variable is never `null`, so the
inner `none` case is never taken. -/
def sendArduinoCommand (st : Server) (command : List Char)
    (writeErr : Option (List Char)) : SendResult × Server :=
  if !st.isConnected || st.arduinoPort.isNone then
    (SendResult.rejected "Arduino not connected".toList, st)
  else
    match st.arduinoPort with
    | none => (SendResult.rejected "Arduino not connected".toList, st)
    | some port =>
      let st1 := { st with written := st.written ++ [(port, command ++ "\n".toList)] }
      match writeErr with
      | some err => (SendResult.rejected err, st1)
      | none => (SendResult.resolved, st1)

/-- The comparison `pin < 2 || pin > 6` on a JavaScript number: both
comparisons are `false` on `NaN`. -/
def pinOutOfRange : Option Int → Bool
  | none => false
  | some n => decide (n < 2) || decide (n > 6)

/-- Model of the handler of `POST /led/:pin`, for a request whose body is
`{state: <boolean>}`: the HTTP status of the response and the server state
after the handler has run. -/
def ledPinHandler (st : Server) (pinParam : List Char) (state : Bool)
    (writeErr : Option (List Char)) : Nat × Server :=
  let pin := parseInt pinParam
  if pinOutOfRange pin then (400, st)
  else
    let command :=
      if state then "ON".toList ++ numberToString pin
      else "OFF".toList ++ numberToString pin
    match sendArduinoCommand st command writeErr with
    | (SendResult.resolved, st1) => (200, st1)
    | (SendResult.rejected _, st1) => (500, st1)

/-! ## Discovery -/

/-- An entry of `SerialPort.list()`: its path and its manufacturer, `none`
when the field is `undefined`. -/
structure PortInfo where
  path : List Char
  manufacturer : Option (List Char)
deriving DecidableEq, Repr

/-- The predicate passed to the first `ports.find`: the manufacturer is
truthy (defined and not the empty string) and includes one of six names. -/
def isArduinoManufacturer (port : PortInfo) : Bool :=
  match port.manufacturer with
  | none => false
  | some m =>
    !m.isEmpty && (
      includes m "Arduino".toList ||
      includes m "FTDI".toList ||
      includes m "CH340".toList ||
      includes m "CP210".toList ||
      includes m "wch.cn".toList ||
      includes m "QinHeng".toList)

/-- Model of the selection made by `connectToArduino`: the path it hands to
`connectToPort`, or `none` when it returns `false` without calling
`connectToPort` (no port is constructed or opened). -/
def connectToArduino (ports : List PortInfo) : Option (List Char) :=
  match ports.find? isArduinoManufacturer with
  | none =>
    match ports.find? (fun port => decide (port.path = "COM5".toList)) with
    | some _ => some "COM5".toList
    | none => none
  | some arduinoPort => some arduinoPort.path

/-- The allow-list of manufacturer substrings, as the specification lists
it. -/
def manufacturerAllowList : List (List Char) :=
  ["Arduino".toList, "FTDI".toList, "CH340".toList, "CP210".toList,
    "wch.cn".toList, "QinHeng".toList]

/-- A candidate matches, in the specification's words: its manufacturer is
present and contains, case-sensitively, one of the allow-listed
substrings. -/
def matchesAllowList (port : PortInfo) : Bool :=
  match port.manufacturer with
  | none => false
  | some m => manufacturerAllowList.any (fun k => includes m k)

/-! ## Facts about the string primitives -/

theorem stripLit_eq_some_iff (pat s r : List Char) :
    stripLit pat s = some r ↔ s = pat ++ r := by
  induction pat generalizing s with
  | nil => simp [stripLit, eq_comm]
  | cons p ps ih =>
    cases s with
    | nil => simp [stripLit]
    | cons c cs =>
      by_cases h : p = c
      · subst h
        simp [stripLit, ih]
      · simp [stripLit, h, Ne.symm h]

theorem stripLit_isSome_iff (pat s : List Char) :
    (stripLit pat s).isSome = true ↔ ∃ r, s = pat ++ r := by
  rw [Option.isSome_iff_exists]
  exact exists_congr (fun r => stripLit_eq_some_iff pat s r)

theorem includes_iff (s pat : List Char) :
    includes s pat = true ↔ ∃ a b, s = a ++ (pat ++ b) := by
  induction s with
  | nil =>
    simp only [includes, stripLit_isSome_iff]
    constructor
    · rintro ⟨r, hr⟩
      exact ⟨[], r, hr⟩
    · rintro ⟨a, b, h⟩
      have h1 : a = [] ∧ pat ++ b = [] := by simpa using h.symm
      exact ⟨b, by simpa using h1.2.symm⟩
  | cons c cs ih =>
    simp only [includes, Bool.or_eq_true, stripLit_isSome_iff, ih]
    constructor
    · rintro (⟨r, hr⟩ | ⟨a, b, h⟩)
      · exact ⟨[], r, hr⟩
      · exact ⟨c :: a, b, by simp [h]⟩
    · rintro ⟨a, b, h⟩
      cases a with
      | nil => exact Or.inl ⟨b, h⟩
      | cons x a =>
        simp only [List.cons_append, List.cons.injEq] at h
        exact Or.inr ⟨a, b, h.2⟩

theorem includes_eq_false_iff (s pat : List Char) :
    includes s pat = false ↔ ¬ ∃ a b, s = a ++ (pat ++ b) := by
  rw [← includes_iff, Bool.not_eq_true]

/-- A function on strings that ignores one trailing whitespace character
ignores `trimEnd`. -/
theorem trimEnd_invariant {α : Type} (f : List Char → α)
    (h : ∀ s w, isJsWhitespace w = true → f (s ++ [w]) = f s) (s : List Char) :
    f (trimEnd s) = f s := by
  induction s using List.reverseRecOn with
  | nil => rfl
  | append_singleton s w ih =>
    by_cases hw : isJsWhitespace w = true
    · have : trimEnd (s ++ [w]) = trimEnd s := by
        simp [trimEnd, List.dropWhile_cons, hw]
      rw [this, ih, h s w hw]
    · have : trimEnd (s ++ [w]) = s ++ [w] := by
        simp [trimEnd, List.dropWhile_cons, hw]
      rw [this]

/-- A function on strings that ignores one leading whitespace character
ignores `trimStart`. -/
theorem trimStart_invariant {α : Type} (f : List Char → α)
    (h : ∀ s w, isJsWhitespace w = true → f (w :: s) = f s) (s : List Char) :
    f (trimStart s) = f s := by
  induction s with
  | nil => rfl
  | cons w s ih =>
    by_cases hw : isJsWhitespace w = true
    · have : trimStart (w :: s) = trimStart s := by
        simp [trimStart, List.dropWhile_cons, hw]
      rw [this, ih, h s w hw]
    · have : trimStart (w :: s) = w :: s := by
        simp [trimStart, List.dropWhile_cons, hw]
      rw [this]

theorem trim_invariant {α : Type} (f : List Char → α)
    (hl : ∀ s w, isJsWhitespace w = true → f (w :: s) = f s)
    (hr : ∀ s w, isJsWhitespace w = true → f (s ++ [w]) = f s) (s : List Char) :
    f (trim s) = f s := by
  unfold trim
  rw [trimEnd_invariant f hr, trimStart_invariant f hl]

theorem snoc_eq_snoc {s t : List Char} {w x : Char} (h : s ++ [w] = t ++ [x]) :
    s = t ∧ w = x := by
  have h1 := List.append_inj' h rfl
  exact ⟨h1.1, by simpa using h1.2⟩

theorem includes_cons_ws (s pat : List Char) (w p : Char) (rest : List Char)
    (hpat : pat = p :: rest) (hp : isJsWhitespace p = false)
    (hw : isJsWhitespace w = true) :
    includes (w :: s) pat = includes s pat := by
  rw [Bool.eq_iff_iff, includes_iff, includes_iff]
  constructor
  · rintro ⟨a, b, h⟩
    cases a with
    | nil =>
      subst hpat
      simp only [List.nil_append, List.cons_append, List.cons.injEq] at h
      rw [h.1, hp] at hw
      exact absurd hw (by simp)
    | cons x a =>
      simp only [List.cons_append, List.cons.injEq] at h
      exact ⟨a, b, h.2⟩
  · rintro ⟨a, b, h⟩
    exact ⟨w :: a, b, by simp [h]⟩

theorem includes_snoc_ws (s pat : List Char) (w q : Char) (init : List Char)
    (hpat : pat = init ++ [q]) (hq : isJsWhitespace q = false)
    (hw : isJsWhitespace w = true) :
    includes (s ++ [w]) pat = includes s pat := by
  rw [Bool.eq_iff_iff, includes_iff, includes_iff]
  constructor
  · rintro ⟨a, b, h⟩
    rcases List.eq_nil_or_concat b with hb | ⟨b1, x, hb⟩
    · subst hb
      subst hpat
      have h1 : s ++ [w] = (a ++ init) ++ [q] := by simpa using h
      have h2 := (snoc_eq_snoc h1).2
      rw [h2, hq] at hw
      exact absurd hw (by simp)
    · subst hb
      have h1 : s ++ [w] = (a ++ (pat ++ b1)) ++ [x] := by simpa using h
      exact ⟨a, b1, (snoc_eq_snoc h1).1⟩
  · rintro ⟨a, b, h⟩
    exact ⟨a, b ++ [w], by simp [h]⟩

/-- Trimming does not change whether a string includes a pattern that starts
and ends with a non-whitespace character. -/
theorem includes_trim (s pat : List Char) (p q : Char) (rest init : List Char)
    (h1 : pat = p :: rest) (hp : isJsWhitespace p = false)
    (h2 : pat = init ++ [q]) (hq : isJsWhitespace q = false) :
    includes (trim s) pat = includes s pat :=
  trim_invariant (fun t => includes t pat)
    (fun t w hw => includes_cons_ws t pat w p rest h1 hp hw)
    (fun t w hw => includes_snoc_ws t pat w q init h2 hq hw) s

theorem includes_trim_allOn (s : List Char) :
    includes (trim s) "All LEDs ON".toList = includes s "All LEDs ON".toList :=
  includes_trim s _ 'A' 'N' "ll LEDs ON".toList "All LEDs O".toList rfl (by decide)
    rfl (by decide)

theorem includes_trim_allOff (s : List Char) :
    includes (trim s) "All LEDs OFF".toList = includes s "All LEDs OFF".toList :=
  includes_trim s _ 'A' 'F' "ll LEDs OFF".toList "All LEDs OF".toList rfl (by decide)
    rfl (by decide)

/-! ## Facts about the pattern matcher -/

theorem matchTail_eq_some_iff (s tok : List Char) :
    matchTail s = some tok ↔ IsToken tok ∧ ∃ post, s = ' ' :: (tok ++ post) := by
  unfold matchTail IsToken
  cases h1 : stripLit " ON".toList s with
  | some r =>
    rw [stripLit_eq_some_iff] at h1
    subst h1
    constructor
    · intro h
      simp only [Option.some.injEq] at h
      subst h
      exact ⟨Or.inl rfl, r, rfl⟩
    · rintro ⟨ht | ht, post, hp⟩
      · rw [ht]
      · subst ht
        simp at hp
  | none =>
    cases h2 : stripLit " OFF".toList s with
    | some r =>
      rw [stripLit_eq_some_iff] at h2
      subst h2
      constructor
      · intro h
        simp only [Option.some.injEq] at h
        subst h
        exact ⟨Or.inr rfl, r, rfl⟩
      · rintro ⟨ht | ht, post, hp⟩
        · subst ht
          simp at hp
        · rw [ht]
    | none =>
      constructor
      · intro h
        simp at h
      · rintro ⟨ht | ht, post, hp⟩
        · subst ht
          have : stripLit " ON".toList s = some post := by
            rw [stripLit_eq_some_iff, hp]; rfl
          rw [h1] at this
          simp at this
        · subst ht
          have : stripLit " OFF".toList s = some post := by
            rw [stripLit_eq_some_iff, hp]; rfl
          rw [h2] at this
          simp at this

theorem matchDigits_cons (acc : List Char) (c : Char) (cs : List Char) :
    matchDigits acc (c :: cs) =
      if isDigit c then
        match matchDigits (acc ++ [c]) cs with
        | some r => some r
        | none => (matchTail cs).map (fun t => (acc ++ [c], t))
      else none := by
  rw [matchDigits]

theorem matchDigits_eq_some_iff (s acc g1 tok : List Char) :
    matchDigits acc s = some (g1, tok) ↔
      ∃ ds post, ds ≠ [] ∧ (∀ c ∈ ds, isDigit c = true) ∧ g1 = acc ++ ds ∧
        IsToken tok ∧ s = ds ++ (' ' :: (tok ++ post)) := by
  induction s generalizing acc with
  | nil =>
    constructor
    · intro h
      simp [matchDigits] at h
    · rintro ⟨ds, post, hne, -, -, -, h⟩
      cases ds with
      | nil => exact absurd rfl hne
      | cons d ds => simp at h
  | cons c cs ih =>
    rw [matchDigits_cons]
    by_cases hd : isDigit c = true
    · rw [if_pos hd]
      constructor
      · intro h
        cases hm : matchDigits (acc ++ [c]) cs with
        | some r =>
          rw [hm] at h
          simp only [Option.some.injEq] at h
          subst h
          obtain ⟨ds, post, -, hall, hg, htok, hs⟩ := (ih (acc ++ [c])).1 hm
          refine ⟨c :: ds, post, by simp, ?_, by simp [hg], htok, by simp [hs]⟩
          intro x hx
          rcases List.mem_cons.1 hx with hx | hx
          · rw [hx]; exact hd
          · exact hall x hx
        | none =>
          rw [hm] at h
          simp only [Option.map_eq_some', Prod.mk.injEq] at h
          obtain ⟨t, ht, hg, htt⟩ := h
          subst htt
          obtain ⟨htok, post, hp⟩ := (matchTail_eq_some_iff cs t).1 ht
          refine ⟨[c], post, by simp, ?_, hg.symm, htok, by simp [hp]⟩
          intro x hx
          rw [List.mem_singleton.1 hx]; exact hd
      · rintro ⟨ds, post, hne, hall, hg, htok, hs⟩
        cases ds with
        | nil => exact absurd rfl hne
        | cons d ds =>
          simp only [List.cons_append, List.cons.injEq] at hs
          obtain ⟨hcd, hcs⟩ := hs
          subst hcd
          cases ds with
          | nil =>
            simp only [List.nil_append] at hcs
            have hnone : matchDigits (acc ++ [c]) cs = none := by
              rw [hcs, matchDigits_cons, if_neg (by decide)]
            rw [hnone]
            have ht : matchTail cs = some tok :=
              (matchTail_eq_some_iff cs tok).2 ⟨htok, post, hcs⟩
            simp [ht, hg]
          | cons e ds =>
            have hsome : matchDigits (acc ++ [c]) cs = some (g1, tok) :=
              (ih (acc ++ [c])).2 ⟨e :: ds, post, by simp,
                fun x hx => hall x (List.mem_cons_of_mem _ hx), by simp [hg], htok, hcs⟩
            rw [hsome]
    · rw [if_neg hd]
      constructor
      · intro h
        simp at h
      · rintro ⟨ds, post, hne, hall, -, -, hs⟩
        cases ds with
        | nil => exact absurd rfl hne
        | cons d ds =>
          simp only [List.cons_append, List.cons.injEq] at hs
          exact absurd (hs.1 ▸ hall d (List.mem_cons_self _ _)) hd

/-- Declarative reading of a match of the pattern at the start of `s`: `s` is
`Pin `, a non-empty run of digits `g1`, a space, the token `tok`, and
anything after it. -/
theorem matchAt_eq_some_iff (s g1 tok : List Char) :
    matchAt s = some (g1, tok) ↔
      g1 ≠ [] ∧ (∀ c ∈ g1, isDigit c = true) ∧ IsToken tok ∧
        ∃ post, s = "Pin ".toList ++ (g1 ++ (' ' :: (tok ++ post))) := by
  unfold matchAt
  cases h : stripLit "Pin ".toList s with
  | some rest =>
    rw [stripLit_eq_some_iff] at h
    subst h
    simp only [matchDigits_eq_some_iff, List.nil_append, List.append_cancel_left_eq]
    constructor
    · rintro ⟨ds, post, hne, hall, hg, htok, hs⟩
      subst hg
      exact ⟨hne, hall, htok, post, hs⟩
    · rintro ⟨hne, hall, htok, post, hs⟩
      exact ⟨g1, post, hne, hall, rfl, htok, hs⟩
  | none =>
    constructor
    · intro h'
      simp at h'
    · rintro ⟨-, -, -, post, hs⟩
      have : stripLit "Pin ".toList s = some (g1 ++ (' ' :: (tok ++ post))) := by
        rw [stripLit_eq_some_iff, hs]
      rw [h] at this
      simp at this

theorem matchAt_nil : matchAt [] = none := rfl

theorem matchAt_cons_ws (s : List Char) (w : Char) (hw : isJsWhitespace w = true) :
    matchAt (w :: s) = none := by
  cases h : matchAt (w :: s) with
  | none => rfl
  | some r =>
    obtain ⟨g1, tok⟩ := r
    obtain ⟨-, -, -, post, hs⟩ := (matchAt_eq_some_iff _ _ _).1 h
    have hP : w = 'P' := (List.cons.inj hs).1
    rw [hP] at hw
    exact absurd hw (by decide)

theorem token_snoc_ne_ws {tok : List Char} (htok : IsToken tok) :
    ∃ init q, tok = init ++ [q] ∧ isJsWhitespace q = false := by
  rcases htok with h | h
  · exact ⟨"O".toList, 'N', h, by decide⟩
  · exact ⟨"OF".toList, 'F', h, by decide⟩

theorem matchAt_snoc_ws (s : List Char) (w : Char) (hw : isJsWhitespace w = true) :
    matchAt (s ++ [w]) = matchAt s := by
  apply Option.ext
  rintro ⟨g1, tok⟩
  simp only [Option.mem_def, matchAt_eq_some_iff]
  constructor
  · rintro ⟨hne, hall, htok, post, hs⟩
    refine ⟨hne, hall, htok, ?_⟩
    rcases List.eq_nil_or_concat post with hp | ⟨post1, x, hp⟩
    · subst hp
      obtain ⟨init, q, hq, hqw⟩ := token_snoc_ne_ws htok
      have h1 : s ++ [w] = ("Pin ".toList ++ (g1 ++ (' ' :: init))) ++ [q] := by
        rw [hs, hq]; simp
      have h2 := (snoc_eq_snoc h1).2
      rw [h2, hqw] at hw
      exact absurd hw (by simp)
    · subst hp
      have h1 : s ++ [w] = ("Pin ".toList ++ (g1 ++ (' ' :: (tok ++ post1)))) ++ [x] := by
        rw [hs]; simp
      exact ⟨post1, (snoc_eq_snoc h1).1⟩
  · rintro ⟨hne, hall, htok, post, hs⟩
    exact ⟨hne, hall, htok, post ++ [w], by rw [hs]; simp⟩

theorem matchPin_cons_ws (s : List Char) (w : Char) (hw : isJsWhitespace w = true) :
    matchPin (w :: s) = matchPin s := by
  rw [matchPin, matchAt_cons_ws s w hw]

theorem matchPin_snoc_ws (s : List Char) (w : Char) (hw : isJsWhitespace w = true) :
    matchPin (s ++ [w]) = matchPin s := by
  induction s with
  | nil =>
    have h := matchAt_snoc_ws [] w hw
    simp only [List.nil_append] at h
    simp only [List.nil_append, matchPin, h, matchAt_nil]
  | cons c cs ih =>
    have h := matchAt_snoc_ws (c :: cs) w hw
    simp only [List.cons_append] at h
    show matchPin (c :: (cs ++ [w])) = matchPin (c :: cs)
    rw [matchPin, matchPin, h, ih]

/-- Trimming does not change the leftmost match of the pattern. -/
theorem matchPin_trim (s : List Char) : matchPin (trim s) = matchPin s :=
  trim_invariant matchPin matchPin_cons_ws matchPin_snoc_ws s

/-- What `matchPin` returns is a match at some start position, and the pattern
matches at no earlier start position: it is the leftmost match. -/
theorem matchPin_eq_some_iff (s : List Char) (r : List Char × List Char) :
    matchPin s = some r ↔
      ∃ pre t, s = pre ++ t ∧ matchAt t = some r ∧
        ∀ pre1 t1, s = pre1 ++ t1 → pre1.length < pre.length → matchAt t1 = none := by
  induction s with
  | nil =>
    constructor
    · intro h
      simp [matchPin] at h
    · rintro ⟨pre, t, hs, hm, -⟩
      have h1 : pre = [] ∧ t = [] := by simpa using hs.symm
      rw [h1.2, matchAt_nil] at hm
      simp at hm
  | cons c cs ih =>
    rw [matchPin]
    cases hm : matchAt (c :: cs) with
    | some r1 =>
      simp only [Option.some.injEq]
      constructor
      · intro h
        subst h
        exact ⟨[], c :: cs, rfl, hm, fun pre1 t1 _ hl => absurd hl (by simp)⟩
      · rintro ⟨pre, t, hs, hmt, hleft⟩
        cases pre with
        | nil =>
          simp only [List.nil_append] at hs
          rw [← hs, hm] at hmt
          simpa using hmt
        | cons x pre =>
          have := hleft [] (c :: cs) rfl (by simp)
          rw [hm] at this
          simp at this
    | none =>
      simp only [ih]
      constructor
      · rintro ⟨pre, t, hs, hmt, hleft⟩
        refine ⟨c :: pre, t, by simp [hs], hmt, ?_⟩
        intro pre1 t1 h1 hl
        cases pre1 with
        | nil =>
          simp only [List.nil_append] at h1
          rw [← h1]; exact hm
        | cons y pre1 =>
          simp only [List.cons_append, List.cons.injEq] at h1
          exact hleft pre1 t1 h1.2 (by simpa using hl)
      · rintro ⟨pre, t, hs, hmt, hleft⟩
        cases pre with
        | nil =>
          simp only [List.nil_append] at hs
          rw [← hs, hm] at hmt
          simp at hmt
        | cons x pre =>
          simp only [List.cons_append, List.cons.injEq] at hs
          refine ⟨pre, t, hs.2, hmt, ?_⟩
          intro pre1 t1 h1 hl
          exact hleft (c :: pre1) t1 (by simp [h1]) (by simpa using hl)

/-- A string in which the pattern matches includes `Pin` and one of `ON`,
`OFF`, so the guard in front of the `match` call never hides a match. -/
theorem guard_of_matchPin (s : List Char) (r : List Char × List Char)
    (h : matchPin s = some r) :
    (includes s "Pin".toList &&
      (includes s "ON".toList || includes s "OFF".toList)) = true := by
  obtain ⟨g1, tok⟩ := r
  obtain ⟨pre, t, hs, hm, -⟩ := (matchPin_eq_some_iff s _).1 h
  obtain ⟨-, -, htok, post, ht⟩ := (matchAt_eq_some_iff _ _ _).1 hm
  simp only [Bool.and_eq_true, Bool.or_eq_true, includes_iff]
  refine ⟨⟨pre, ' ' :: (g1 ++ (' ' :: (tok ++ post))), by rw [hs, ht]; rfl⟩, ?_⟩
  rcases htok with h1 | h1
  · left
    exact ⟨pre ++ ("Pin ".toList ++ (g1 ++ [' '])), post, by rw [hs, ht, h1]; simp⟩
  · right
    exact ⟨pre ++ ("Pin ".toList ++ (g1 ++ [' '])), post, by rw [hs, ht, h1]; simp⟩

/-- The single-pin block of `handleArduinoData` written without its guard. -/
theorem applyPinReport_eq (ledStates : List Bool) (message : List Char) :
    applyPinReport ledStates message =
      match matchPin message with
      | some (g1, g2) =>
        match parseInt g1 with
        | some n =>
          if 0 ≤ n - 2 ∧ n - 2 < 5 then
            ledStates.set (n - 2).toNat (decide (g2 = "ON".toList))
          else ledStates
        | none => ledStates
      | none => ledStates := by
  unfold applyPinReport
  cases hm : matchPin message with
  | none => simp
  | some r =>
    rw [if_pos (guard_of_matchPin message r hm)]

/-- `handleArduinoData` in terms of the untrimmed line. -/
theorem handleArduinoData_eq (ledStates : List Bool) (data : List Char) :
    handleArduinoData ledStates data =
      if includes data "All LEDs OFF".toList then [false, false, false, false, false]
      else if includes data "All LEDs ON".toList then [true, true, true, true, true]
      else
        match matchPin data with
        | some (g1, g2) =>
          match parseInt g1 with
          | some n =>
            if 0 ≤ n - 2 ∧ n - 2 < 5 then
              ledStates.set (n - 2).toNat (decide (g2 = "ON".toList))
            else ledStates
          | none => ledStates
        | none => ledStates := by
  unfold handleArduinoData
  simp only [includes_trim_allOn, includes_trim_allOff, applyPinReport_eq, matchPin_trim]

theorem getElem?_set_lt (s : List Bool) (k j : Nat) (b : Bool) (hk : k < s.length) :
    (s.set k b)[j]? = if j = k then some b else s[j]? := by
  by_cases h : j = k
  · subst h
    simp [hk]
  · rw [if_neg h]
    exact List.getElem?_set_ne (Ne.symm h)

/-- One line seen from index `i`: the length stays 5 and index `i` takes the
value the line assigns to it, or keeps its value. -/
theorem handleArduinoData_at (s : List Bool) (hs : s.length = 5) (line : List Char)
    (i : Nat) (hi : i < 5) :
    (handleArduinoData s line).length = 5 ∧
      (handleArduinoData s line)[i]? =
        match lineAssigns line i with
        | some b => some b
        | none => s[i]? := by
  rw [handleArduinoData_eq]
  unfold lineAssigns
  by_cases hOff : includes line "All LEDs OFF".toList = true
  · simp only [hOff, if_true]
    refine ⟨rfl, ?_⟩
    interval_cases i <;> rfl
  · by_cases hOn : includes line "All LEDs ON".toList = true
    · simp only [hOff, hOn, if_true, if_false]
      refine ⟨rfl, ?_⟩
      interval_cases i <;> rfl
    · simp only [hOff, hOn, if_false]
      cases hm : matchPin line with
      | none => exact ⟨hs, rfl⟩
      | some r =>
        obtain ⟨g1, tok⟩ := r
        show (match parseInt g1 with
            | some n =>
              if 0 ≤ n - 2 ∧ n - 2 < 5 then
                s.set (n - 2).toNat (decide (tok = "ON".toList))
              else s
            | none => s).length = 5 ∧
          (match parseInt g1 with
            | some n =>
              if 0 ≤ n - 2 ∧ n - 2 < 5 then
                s.set (n - 2).toNat (decide (tok = "ON".toList))
              else s
            | none => s)[i]? =
          match (if parseInt g1 = some ((i : Int) + 2) then
              some (decide (tok = "ON".toList)) else none) with
          | some b => some b
          | none => s[i]?
        cases hp : parseInt g1 with
        | none => simp [hs]
        | some n =>
          by_cases hr : 0 ≤ n - 2 ∧ n - 2 < 5
          · have hk : (n - 2).toNat < s.length := by omega
            simp only [if_pos hr, List.length_set, hs, true_and, Option.some.injEq]
            rw [getElem?_set_lt s _ _ _ hk]
            by_cases hin : n = (i : Int) + 2
            · have : i = (n - 2).toNat := by omega
              rw [if_pos this, if_pos hin]
            · have : i ≠ (n - 2).toNat := by omega
              rw [if_neg this, if_neg hin]
          · have hin : n ≠ (i : Int) + 2 := by omega
            simp only [if_neg hr, hs, true_and, Option.some.injEq, if_neg hin]

theorem processLines_length (lines : List (List Char)) (s : List Bool)
    (hs : s.length = 5) : (processLines s lines).length = 5 := by
  induction lines generalizing s with
  | nil => exact hs
  | cons l ls ih =>
    exact ih _ (handleArduinoData_at s hs l 0 (by decide)).1

theorem processLines_append (pre post : List (List Char)) (s : List Bool) :
    processLines s (pre ++ post) = processLines (processLines s pre) post := by
  induction pre generalizing s with
  | nil => rfl
  | cons l ls ih => exact ih _

theorem processLines_unassigned (lines : List (List Char)) (s : List Bool)
    (hs : s.length = 5) (i : Nat) (hi : i < 5)
    (h : ∀ m ∈ lines, lineAssigns m i = none) :
    (processLines s lines)[i]? = s[i]? := by
  induction lines generalizing s with
  | nil => rfl
  | cons l ls ih =>
    have h1 := handleArduinoData_at s hs l i hi
    rw [h l (List.mem_cons_self _ _)] at h1
    show (processLines (handleArduinoData s l) ls)[i]? = s[i]?
    rw [ih _ h1.1 (fun m hm => h m (List.mem_cons_of_mem _ hm)), h1.2]

/-! ## Facts about discovery -/

/-- The allow-list test is substring containment of one of the six names. -/
theorem matchesAllowList_iff (port : PortInfo) :
    matchesAllowList port = true ↔
      ∃ m, port.manufacturer = some m ∧
        ∃ k ∈ manufacturerAllowList, ∃ a b, m = a ++ (k ++ b) := by
  unfold matchesAllowList
  cases hm : port.manufacturer with
  | none => simp
  | some m =>
    simp only [List.any_eq_true, includes_iff, Option.some.injEq, exists_eq_left']

/-- The predicate of the code and the allow-list test agree: the truthiness
test on the manufacturer only excludes the empty string, which contains none
of the names. -/
theorem isArduinoManufacturer_eq (port : PortInfo) :
    isArduinoManufacturer port = matchesAllowList port := by
  unfold isArduinoManufacturer matchesAllowList manufacturerAllowList
  cases hm : port.manufacturer with
  | none => rfl
  | some m =>
    cases m with
    | nil => decide
    | cons c cs => simp [List.any_cons, Bool.or_assoc]

theorem find?_eq_of_first {α : Type} (q : α → Bool) (pre : List α) (c : α)
    (post : List α) (hc : q c = true) (hpre : ∀ x ∈ pre, q x = false) :
    (pre ++ c :: post).find? q = some c := by
  induction pre with
  | nil => simp [List.find?_cons, hc]
  | cons x xs ih =>
    have hx : q x = false := hpre x (List.mem_cons_self _ _)
    simp only [List.cons_append, List.find?_cons, hx]
    exact ih (fun y hy => hpre y (List.mem_cons_of_mem _ hy))

theorem find?_eq_none_of_all {α : Type} (q : α → Bool) (l : List α)
    (h : ∀ x ∈ l, q x = false) : l.find? q = none := by
  rw [List.find?_eq_none]
  intro x hx
  simp [h x hx]

/-! ## The status parser: single-pin reports, ignored lines, bulk phrases -/

/-- C1: for a Device State of 5 booleans and a line that contains neither
`All LEDs ON` nor `All LEDs OFF` and whose leftmost match of
`Pin <digits> (ON|OFF)` carries a pin `p` with `2 ≤ p ≤ 6`,
`handleArduinoData` keeps every index other than `p - 2` and makes index
`p - 2` true when the matched token is `ON`, false when it is `OFF`. -/
theorem handleArduinoData_pin_in_range (s : List Bool) (hs : s.length = 5)
    (line g1 tok : List Char) (p : Int)
    (hOn : includes line "All LEDs ON".toList = false)
    (hOff : includes line "All LEDs OFF".toList = false)
    (hm : matchPin line = some (g1, tok)) (hp : parseInt g1 = some p)
    (h2 : 2 ≤ p) (h6 : p ≤ 6) :
    (handleArduinoData s line).length = 5 ∧
      (∀ j, j ≠ (p - 2).toNat → (handleArduinoData s line)[j]? = s[j]?) ∧
      IsToken tok ∧
      (tok = "ON".toList → (handleArduinoData s line)[(p - 2).toNat]? = some true) ∧
      (tok = "OFF".toList → (handleArduinoData s line)[(p - 2).toNat]? = some false) := by
  have hk : (p - 2).toNat < s.length := by omega
  have hr : 0 ≤ p - 2 ∧ p - 2 < 5 := by omega
  have hval : handleArduinoData s line =
      s.set (p - 2).toNat (decide (tok = "ON".toList)) := by
    rw [handleArduinoData_eq, hOff, hOn]
    simp only [Bool.false_eq_true, if_false, hm, hp, if_pos hr]
  obtain ⟨pre, t, -, hmt, -⟩ := (matchPin_eq_some_iff line _).1 hm
  obtain ⟨-, -, htok, -⟩ := (matchAt_eq_some_iff _ _ _).1 hmt
  rw [hval]
  refine ⟨by simp [hs], ?_, htok, ?_, ?_⟩
  · intro j hj
    rw [getElem?_set_lt s _ _ _ hk, if_neg hj]
  · intro h
    rw [getElem?_set_lt s _ _ _ hk, if_pos rfl, h]
    rfl
  · intro h
    rw [getElem?_set_lt s _ _ _ hk, if_pos rfl, h]
    rfl

/-- C1, at the lines `Pin 3 ON` and `Pin 3 OFF`: index 1 becomes true, then
false. -/
theorem handleArduinoData_pin_in_range_witness :
    (handleArduinoData initialLedStates "Pin 3 ON\r".toList)[1]? = some true ∧
      (handleArduinoData [true, true, true, true, true] "Pin 3 OFF".toList)[1]?
        = some false :=
  ⟨(handleArduinoData_pin_in_range initialLedStates rfl "Pin 3 ON\r".toList
      "3".toList "ON".toList 3 (by decide) (by decide) (by decide) (by decide)
      (by decide) (by decide)).2.2.2.1 rfl,
    (handleArduinoData_pin_in_range [true, true, true, true, true] rfl
      "Pin 3 OFF".toList "3".toList "OFF".toList 3 (by decide) (by decide)
      (by decide) (by decide) (by decide) (by decide)).2.2.2.2 rfl⟩

/-- C2: for every Device State and every line that contains neither
`All LEDs ON` nor `All LEDs OFF` and that either has no match of
`Pin <digits> (ON|OFF)` or whose matched pin number is outside `[2,6]`
(any number of digits), `handleArduinoData` returns the state unchanged; the
handler is a total function, so no error is raised. -/
theorem handleArduinoData_ignored (s : List Bool) (line : List Char)
    (hOn : includes line "All LEDs ON".toList = false)
    (hOff : includes line "All LEDs OFF".toList = false)
    (hm : matchPin line = none ∨
      ∃ g1 tok, matchPin line = some (g1, tok) ∧
        ∀ p, parseInt g1 = some p → p < 2 ∨ 6 < p) :
    handleArduinoData s line = s := by
  rw [handleArduinoData_eq, hOff, hOn]
  simp only [Bool.false_eq_true, if_false]
  rcases hm with hm | ⟨g1, tok, hm, hp⟩
  · rw [hm]
  · rw [hm]
    show (match parseInt g1 with
      | some n =>
        if 0 ≤ n - 2 ∧ n - 2 < 5 then
          s.set (n - 2).toNat (decide (tok = "ON".toList))
        else s
      | none => s) = s
    cases hq : parseInt g1 with
    | none => rfl
    | some n =>
      have hn := hp n hq
      have hr : ¬ (0 ≤ n - 2 ∧ n - 2 < 5) := by omega
      simp only [if_neg hr]

/-- C2, at the lines `Pin 12 ON` (pin out of range) and `hello` (no match):
the state is returned as it was. -/
theorem handleArduinoData_ignored_witness :
    handleArduinoData [true, false, true, false, true] "Pin 12 ON".toList
        = [true, false, true, false, true] ∧
      handleArduinoData [true, false, true, false, true] "hello".toList
        = [true, false, true, false, true] :=
  ⟨handleArduinoData_ignored [true, false, true, false, true] "Pin 12 ON".toList
      (by decide) (by decide)
      (Or.inr ⟨"12".toList, "ON".toList, by decide, fun p hp => by
        have h12 : parseInt "12".toList = some 12 := by decide
        rw [h12] at hp
        have : p = 12 := (Option.some.inj hp).symm
        omega⟩),
    handleArduinoData_ignored [true, false, true, false, true] "hello".toList
      (by decide) (by decide) (Or.inl (by decide))⟩

/-- C3 as stated fails: the line `All LEDs ON All LEDs OFF` contains
`All LEDs ON`, yet the state after it is all `false`, because the
`All LEDs OFF` block runs last. -/
theorem handleArduinoData_allOn_counterexample :
    ¬ ∀ (s : List Bool) (line : List Char),
      includes line "All LEDs ON".toList = true →
        handleArduinoData s line = [true, true, true, true, true] := by
  intro h
  have h1 := h initialLedStates "All LEDs ON All LEDs OFF".toList (by decide)
  revert h1
  decide

/-- C3, amended: for every Device State and every line that contains
`All LEDs ON` and does not contain `All LEDs OFF`, the state after
`handleArduinoData` has all 5 entries true. -/
theorem handleArduinoData_allOn (s : List Bool) (line : List Char)
    (hOn : includes line "All LEDs ON".toList = true)
    (hOff : includes line "All LEDs OFF".toList = false) :
    handleArduinoData s line = [true, true, true, true, true] := by
  rw [handleArduinoData_eq, hOff, hOn]
  simp

/-- C3, amended, at the line `All LEDs ON`. -/
theorem handleArduinoData_allOn_witness :
    handleArduinoData initialLedStates " All LEDs ON\r".toList
      = [true, true, true, true, true] :=
  handleArduinoData_allOn initialLedStates " All LEDs ON\r".toList (by decide)
    (by decide)

/-- C4: for every Device State and every line that contains `All LEDs OFF`,
the state after `handleArduinoData` has all 5 entries false, and processing
the same line a second time gives the same all-false state. -/
theorem handleArduinoData_allOff (s : List Bool) (line : List Char)
    (hOff : includes line "All LEDs OFF".toList = true) :
    handleArduinoData s line = [false, false, false, false, false] ∧
      handleArduinoData (handleArduinoData s line) line
        = [false, false, false, false, false] ∧
      handleArduinoData (handleArduinoData s line) line = handleArduinoData s line := by
  have h : ∀ t, handleArduinoData t line = [false, false, false, false, false] := by
    intro t
    rw [handleArduinoData_eq, hOff]
    simp
  exact ⟨h s, h _, by rw [h s, h _]⟩

/-- C4, at the line `All LEDs OFF` received by an all-true state. -/
theorem handleArduinoData_allOff_witness :
    handleArduinoData [true, true, true, true, true] "All LEDs OFF".toList
      = [false, false, false, false, false] :=
  (handleArduinoData_allOff [true, true, true, true, true] "All LEDs OFF".toList
    (by decide)).1

/-! ## Ordering: the most recent authoritative line wins -/

/-- C5: processing a sequence of lines is the left fold of
`handleArduinoData` in arrival order, and for every initial Device State of 5
booleans, every sequence of lines and every index `i < 5`, the final value at
`i` is the value given by the last line that assigns `i`, and the initial
value at `i` when no line assigns `i`. -/
theorem processLines_last_assignment_wins (s : List Bool) (hs : s.length = 5)
    (lines : List (List Char)) (i : Nat) (hi : i < 5) :
    processLines s lines = List.foldl handleArduinoData s lines ∧
      (∀ pre line post b, lines = pre ++ line :: post →
        lineAssigns line i = some b →
        (∀ m ∈ post, lineAssigns m i = none) →
        (processLines s lines)[i]? = some b) ∧
      ((∀ m ∈ lines, lineAssigns m i = none) →
        (processLines s lines)[i]? = s[i]?) := by
  refine ⟨?_, ?_, processLines_unassigned lines s hs i hi⟩
  · clear hs
    induction lines generalizing s with
    | nil => rfl
    | cons l ls ih => exact ih _
  · intro pre line post b hl hb hpost
    subst hl
    rw [processLines_append]
    show (processLines (handleArduinoData (processLines s pre) line) post)[i]? = some b
    have hpre := processLines_length pre s hs
    have h1 := handleArduinoData_at (processLines s pre) hpre line i hi
    rw [hb] at h1
    rw [processLines_unassigned post _ h1.1 i hi hpost, h1.2]

/-- C5, on the sequence `Pin 3 ON`, `All LEDs OFF`, `Pin 4 ON`, `Pin 3 ON`,
`Pin 9 OFF`, `noise`: index 1 ends true (last assigned by the fourth line),
and index 4, assigned last by `All LEDs OFF`, ends false. -/
theorem processLines_last_assignment_wins_witness :
    (processLines [true, true, true, true, true]
        ["Pin 3 ON".toList, "All LEDs OFF".toList, "Pin 4 ON".toList,
          "Pin 3 ON".toList, "Pin 9 OFF".toList, "noise".toList])[1]? = some true ∧
      (processLines [true, true, true, true, true]
        ["Pin 3 ON".toList, "All LEDs OFF".toList, "Pin 4 ON".toList,
          "Pin 3 ON".toList, "Pin 9 OFF".toList, "noise".toList])[4]? = some false ∧
      (processLines [true, false, true, false, true]
        ["Pin 9 OFF".toList, "noise".toList])[0]? = some true :=
  ⟨(processLines_last_assignment_wins [true, true, true, true, true] rfl
      ["Pin 3 ON".toList, "All LEDs OFF".toList, "Pin 4 ON".toList,
        "Pin 3 ON".toList, "Pin 9 OFF".toList, "noise".toList] 1 (by decide)).2.1
      ["Pin 3 ON".toList, "All LEDs OFF".toList, "Pin 4 ON".toList]
      "Pin 3 ON".toList ["Pin 9 OFF".toList, "noise".toList] true rfl (by decide)
      (by decide),
    (processLines_last_assignment_wins [true, true, true, true, true] rfl
      ["Pin 3 ON".toList, "All LEDs OFF".toList, "Pin 4 ON".toList,
        "Pin 3 ON".toList, "Pin 9 OFF".toList, "noise".toList] 4 (by decide)).2.1
      ["Pin 3 ON".toList] "All LEDs OFF".toList
      ["Pin 4 ON".toList, "Pin 3 ON".toList, "Pin 9 OFF".toList, "noise".toList]
      false rfl (by decide) (by decide),
    (processLines_last_assignment_wins [true, false, true, false, true] rfl
      ["Pin 9 OFF".toList, "noise".toList] 0 (by decide)).2.2 (by decide)⟩

/-! ## Command transmission -/

/-- C6: for every command string, `sendArduinoCommand` called while
disconnected (`isConnected` false, or no port handle held) rejects with the
not-connected error and makes no write: the server state, with its record of
writes, is returned as it was. -/
theorem sendArduinoCommand_disconnected (st : Server) (command : List Char)
    (writeErr : Option (List Char))
    (h : st.isConnected = false ∨ st.arduinoPort = none) :
    (sendArduinoCommand st command writeErr).1
        = SendResult.rejected "Arduino not connected".toList ∧
      (sendArduinoCommand st command writeErr).2 = st ∧
      (sendArduinoCommand st command writeErr).2.written = st.written := by
  have hg : (!st.isConnected || st.arduinoPort.isNone) = true := by
    rcases h with h | h
    · simp [h]
    · simp [h]
  unfold sendArduinoCommand
  rw [if_pos hg]
  exact ⟨rfl, rfl, rfl⟩

/-- C6, at the initial (never connected) state and at a state whose port
reported an error after opening. -/
theorem sendArduinoCommand_disconnected_witness :
    (sendArduinoCommand Server.initial "ON3".toList none).2.written = [] ∧
      (sendArduinoCommand (onError (onOpen 1 Server.initial)) "ALLON".toList none).1
        = SendResult.rejected "Arduino not connected".toList :=
  ⟨(sendArduinoCommand_disconnected Server.initial "ON3".toList none
      (Or.inl rfl)).2.2,
    (sendArduinoCommand_disconnected (onError (onOpen 1 Server.initial))
      "ALLON".toList none (Or.inl rfl)).1⟩

/-! ## Discovery -/

/-- C7: the selection of `connectToArduino` over a list of candidates is the
path of the first candidate, in enumeration order, that matches the
allow-list; when no candidate matches, it is `COM5` exactly when some
candidate has path `COM5`, and otherwise nothing is selected or opened. The
candidates `COM3`/`Unknown`, `COM5`/`wch.cn` select `COM5`. -/
theorem connectToArduino_selection (ports : List PortInfo) :
    (∀ pre c post, ports = pre ++ c :: post → matchesAllowList c = true →
        (∀ x ∈ pre, matchesAllowList x = false) →
        connectToArduino ports = some c.path) ∧
      ((∀ x ∈ ports, matchesAllowList x = false) →
        (∃ x ∈ ports, x.path = "COM5".toList) →
        connectToArduino ports = some "COM5".toList) ∧
      ((∀ x ∈ ports, matchesAllowList x = false) →
        (∀ x ∈ ports, x.path ≠ "COM5".toList) →
        connectToArduino ports = none) ∧
      connectToArduino
        [{ path := "COM3".toList, manufacturer := some "Unknown".toList },
          { path := "COM5".toList, manufacturer := some "wch.cn".toList }]
        = some "COM5".toList := by
  have hfun : isArduinoManufacturer = matchesAllowList :=
    funext isArduinoManufacturer_eq
  refine ⟨?_, ?_, ?_, by decide⟩
  · intro pre c post hl hc hpre
    unfold connectToArduino
    rw [hfun, hl, find?_eq_of_first matchesAllowList pre c post hc hpre]
  · intro hnone hex
    unfold connectToArduino
    rw [hfun, find?_eq_none_of_all matchesAllowList ports hnone]
    obtain ⟨x, hx, hpath⟩ := hex
    cases hf : ports.find? (fun port => decide (port.path = "COM5".toList)) with
    | some y => rfl
    | none =>
      rw [List.find?_eq_none] at hf
      exact absurd (by simpa using hpath) (hf x hx)
  · intro hnone hno
    unfold connectToArduino
    rw [hfun, find?_eq_none_of_all matchesAllowList ports hnone]
    rw [find?_eq_none_of_all _ ports (fun x hx => by simpa using hno x hx)]

/-- C7, on three lists: the first allow-listed candidate wins over a later
one; with no allow-listed candidate, `COM5` is selected when present, and
nothing is selected otherwise. -/
theorem connectToArduino_selection_witness :
    connectToArduino
        [{ path := "COM1".toList, manufacturer := none },
          { path := "COM7".toList, manufacturer := some "FTDI Ltd".toList },
          { path := "COM8".toList, manufacturer := some "Arduino LLC".toList }]
        = some "COM7".toList ∧
      connectToArduino
        [{ path := "COM3".toList, manufacturer := some "arduino".toList },
          { path := "COM5".toList, manufacturer := none }]
        = some "COM5".toList ∧
      connectToArduino
        [{ path := "COM3".toList, manufacturer := some "arduino".toList },
          { path := "com5".toList, manufacturer := none }]
        = none :=
  ⟨(connectToArduino_selection _).1
      [{ path := "COM1".toList, manufacturer := none }]
      { path := "COM7".toList, manufacturer := some "FTDI Ltd".toList }
      [{ path := "COM8".toList, manufacturer := some "Arduino LLC".toList }]
      rfl (by decide) (by decide),
    (connectToArduino_selection _).2.1 (by decide) (by decide),
    (connectToArduino_selection _).2.2.1 (by decide) (by decide)⟩

/-! ## The `/led/:pin` route -/

/-- C8: for every pin `p` with `2 ≤ p ≤ 6` and every boolean state, the
handler of `POST /led/:pin`, run while connected, makes exactly one transport
write, on the held port; its payload is `ON`, the decimal pin and one newline
when the state is true, and `OFF`, the decimal pin and one newline when it is
false. -/
theorem ledPinHandler_writes_once (st : Server) (port : Nat)
    (pinParam : List Char) (p : Int) (state : Bool)
    (writeErr : Option (List Char))
    (hc : st.isConnected = true) (hport : st.arduinoPort = some port)
    (hparse : parseInt pinParam = some p) (h2 : 2 ≤ p) (h6 : p ≤ 6) :
    (ledPinHandler st pinParam state writeErr).2.written =
      st.written ++
        [(port, (if state then "ON".toList else "OFF".toList)
          ++ [Char.ofNat (48 + p.toNat)] ++ ['\n'])] := by
  have hnum : numberToString (some p) = [Char.ofNat (48 + p.toNat)] := by
    interval_cases p <;> decide
  have hrange : pinOutOfRange (some p) = false := by
    interval_cases p <;> decide
  unfold ledPinHandler sendArduinoCommand
  simp only [hparse, hrange, hc, hport, hnum]
  cases state <;> cases writeErr <;> simp

/-- C8, for `POST /led/4` with `{state: true}` and `POST /led/2` with
`{state: false}` on a connected server: the single payloads are `ON4` and
`OFF2`, each followed by a newline. -/
theorem ledPinHandler_writes_once_witness :
    (ledPinHandler (onOpen 7 Server.initial) "4".toList true none).2.written
        = [(7, "ON4\n".toList)] ∧
      (ledPinHandler (onOpen 7 Server.initial) "2".toList false none).2.written
        = [(7, "OFF2\n".toList)] :=
  ⟨ledPinHandler_writes_once (onOpen 7 Server.initial) 7 "4".toList 4 true none
      rfl rfl (by decide) (by decide) (by decide),
    ledPinHandler_writes_once (onOpen 7 Server.initial) 7 "2".toList 2 false none
      rfl rfl (by decide) (by decide) (by decide)⟩

/-- The range check of the route does reject a pin parameter that parses to
a number outside `[2,6]`: status 400, no write, state untouched. -/
theorem ledPinHandler_out_of_range (st : Server) (pinParam : List Char) (p : Int)
    (state : Bool) (writeErr : Option (List Char))
    (hparse : parseInt pinParam = some p) (hp : p < 2 ∨ 6 < p) :
    ledPinHandler st pinParam state writeErr = (400, st) := by
  have hrange : pinOutOfRange (some p) = true := by
    simp only [pinOutOfRange, Bool.or_eq_true, decide_eq_true_eq]
    omega
  unfold ledPinHandler
  simp only [hparse, hrange, if_true]

/-- C9, the code at a non-numeric pin parameter: for `POST /led/abc` with
`{state: true}` on a connected server, `parseInt` gives `NaN`, both
comparisons of the range check are false, and the handler writes `ONNaN` and
a newline to the port and answers 200 instead of 400; on a disconnected
server the same request is answered 500. The numeric examples `7`, `1` and
`-3` are answered 400 with no write. -/
theorem ledPinHandler_nan_not_rejected :
    parseInt "abc".toList = none ∧
      ledPinHandler (onOpen 7 Server.initial) "abc".toList true none
        = (200, { onOpen 7 Server.initial with written := [(7, "ONNaN\n".toList)] }) ∧
      (ledPinHandler Server.initial "abc".toList true none).1 = 500 ∧
      ledPinHandler (onOpen 7 Server.initial) "7".toList true none
        = (400, onOpen 7 Server.initial) ∧
      ledPinHandler (onOpen 7 Server.initial) "1".toList true none
        = (400, onOpen 7 Server.initial) ∧
      ledPinHandler (onOpen 7 Server.initial) "-3".toList true none
        = (400, onOpen 7 Server.initial) := by
  decide

/-! ## Connection state machine -/

/-- C10, the code at an error event on an open connection: after `open` of
port 7 and then `error`, the connected flag is false but the port handle is
still held. For every state, the `error` listener clears the flag and leaves
the handle as it was, while the `close` listener clears the flag and drops
the handle and the parser. -/
theorem portStep_error_keeps_handle :
    (portStep (portStep Server.initial (PortEvent.opened 7)) PortEvent.error).isConnected
        = false ∧
      (portStep (portStep Server.initial (PortEvent.opened 7)) PortEvent.error).arduinoPort
        = some 7 ∧
      (∀ st : Server, (portStep st PortEvent.error).isConnected = false ∧
        (portStep st PortEvent.error).arduinoPort = st.arduinoPort) ∧
      (∀ st : Server, (portStep st PortEvent.close).isConnected = false ∧
        (portStep st PortEvent.close).arduinoPort = none ∧
        (portStep st PortEvent.close).parser = none) :=
  ⟨rfl, rfl, fun _ => ⟨rfl, rfl⟩, fun _ => ⟨rfl, rfl, rfl⟩⟩

/-! ## Shape of the Device State -/

/-- C11: the initial Device State has exactly 5 entries; for every Device
State of length 5 and every inbound line (matching or not, any pin number)
the state after `handleArduinoData` again has exactly 5 entries, and its
index `i` holds what the line reports for channel `i + 2` or else the value
index `i` had; hence every state reached from a length-5 state, the initial
one in particular, by any sequence of inbound lines has length 5. -/
theorem ledStates_shape_invariant :
    initialLedStates.length = 5 ∧
      (∀ (s : List Bool) (line : List Char), s.length = 5 →
        (handleArduinoData s line).length = 5) ∧
      (∀ (s : List Bool) (line : List Char) (i : Nat), s.length = 5 → i < 5 →
        (handleArduinoData s line)[i]? =
          match lineAssigns line i with
          | some b => some b
          | none => s[i]?) ∧
      (∀ (s : List Bool) (lines : List (List Char)), s.length = 5 →
        (processLines s lines).length = 5) ∧
      (∀ lines : List (List Char), (processLines initialLedStates lines).length = 5) :=
  ⟨rfl,
    fun s line hs => (handleArduinoData_at s hs line 0 (by decide)).1,
    fun s line i hs hi => (handleArduinoData_at s hs line i hi).2,
    fun s lines hs => processLines_length lines s hs,
    fun lines => processLines_length lines initialLedStates rfl⟩

/-- C11, at the out-of-range report `Pin 99 ON`, at the in-range report
`Pin 6 ON` seen from index 4 (channel 6), and at a sequence of three
lines. -/
theorem ledStates_shape_invariant_witness :
    (handleArduinoData initialLedStates "Pin 99 ON".toList).length = 5 ∧
      (handleArduinoData initialLedStates "Pin 6 ON".toList)[4]? = some true ∧
      (processLines [true, false, true, false, true]
        ["Pin 7 ON".toList, "All LEDs ON".toList, "Pin 2 OFF".toList]).length = 5 :=
  ⟨ledStates_shape_invariant.2.1 initialLedStates "Pin 99 ON".toList rfl,
    ledStates_shape_invariant.2.2.1 initialLedStates "Pin 6 ON".toList 4 rfl
      (by decide),
    ledStates_shape_invariant.2.2.2.1 [true, false, true, false, true]
      ["Pin 7 ON".toList, "All LEDs ON".toList, "Pin 2 OFF".toList] rfl⟩

end LedBridge
